import Mathlib

/-!
# Inventory reservation subsystem: shallow embedding and verification

This file embeds the inventory reservation/release subsystem of the NOVA
delivery/e-commerce repository and proves the specified properties about it.

The backend service code (InventoryService and friends) is not present in the
source snapshot — only its documentation (ARCHITECTURE.md, ALGORITHMS.md, the
READMEs) and the React frontend are.  The subsystem definitions below are
therefore modelled from the design specification (spec.md §3–§4.6), faithfully
following its words; each such definition carries a `Modelled from the spec:`
doc comment.  The frontend definitions (`briefToProduct`,
`ProductDetailPage`-derived predicates) are translated directly from the
TypeScript sources that are present.
-/

namespace Nova

/-- Product identifiers. -/
abbrev ProductId := Nat

/-- Modelled from the spec: §3 **StockRecord** — one per product:
`quantity` (on-hand, ≥0), `reserved` (≥0), `version` (monotonic integer,
increases on every committed mutation).  Quantities are integers so that the
claimed lower bounds `0 ≤ reserved` and `available ≥ 0` are substantive. -/
structure StockRecord where
  quantity : Int
  reserved : Int
  version : Nat
  deriving DecidableEq, Repr

/-- Modelled from the spec: glossary — `available = quantity - reserved`. -/
def StockRecord.available (r : StockRecord) : Int := r.quantity - r.reserved

/-- The stock ledger: the durable per-product stock records. -/
abbrev Ledger := ProductId → StockRecord

/-- Point update of one product's record. -/
def updateLedger (L : Ledger) (pid : ProductId) (f : StockRecord → StockRecord) : Ledger :=
  fun p => if p = pid then f (L p) else L p

/-- Modelled from the spec: §7 error taxonomy. -/
inductive ErrKind where
  | OutOfStock
  | LockTimeout
  | VersionMismatch
  | ConcurrencyConflict
  | InvalidRequest
  | ReservationNotFound
  | InvalidStateTransition
  deriving DecidableEq, Repr

/-- Modelled from the spec: §4.1 `reserveUnderRowLock(productId, qty, txn)` —
inside a transaction, under an exclusive row lock, checks `available ≥ qty`
and if so increments `reserved` and `version`; fails with `OutOfStock`
otherwise, in which case the caller's transaction is rolled back for that
product (the ledger is returned unchanged). -/
def reserveUnderRowLock (L : Ledger) (pid : ProductId) (qty : Int) :
    Option ErrKind × Ledger :=
  if qty ≤ (L pid).available then
    (none, updateLedger L pid fun r =>
      { r with reserved := r.reserved + qty, version := r.version + 1 })
  else
    (some .OutOfStock, L)

/-- Modelled from the spec: §4.1 `reserveWithVersionCheck(productId, qty,
expectedVersion)` — a single atomic conditional update
(`UPDATE ... WHERE version = expectedVersion AND available ≥ qty`); the
success/failure kind is derived from the rows affected. -/
def reserveWithVersionCheck (L : Ledger) (pid : ProductId) (qty : Int)
    (expectedVersion : Nat) : Option ErrKind × Ledger :=
  if (L pid).version = expectedVersion then
    if qty ≤ (L pid).available then
      (none, updateLedger L pid fun r =>
        { r with reserved := r.reserved + qty, version := r.version + 1 })
    else
      (some .OutOfStock, L)
  else
    (some .VersionMismatch, L)

/-- Modelled from the spec: §4.1 `release(productId, qty)` — unconditional
decrement of `reserved` with `GREATEST(0, reserved - qty)` semantics; a
committed mutation, so `version` increases. -/
def ledgerRelease (L : Ledger) (pid : ProductId) (qty : Int) : Ledger :=
  updateLedger L pid fun r =>
    { r with reserved := max 0 (r.reserved - qty), version := r.version + 1 }

/-- Modelled from the spec: §4.1 `confirm(productId, qty)` — decrements both
`reserved` (with `GREATEST(0, ·)` clamping) and `quantity`; a committed
mutation, so `version` increases. -/
def ledgerConfirm (L : Ledger) (pid : ProductId) (qty : Int) : Ledger :=
  updateLedger L pid fun r =>
    { r with quantity := r.quantity - qty,
             reserved := max 0 (r.reserved - qty),
             version := r.version + 1 }

/-- Modelled from the spec: §6 `getAvailable(productId)` — `quantity - reserved`,
no side effects. -/
def getAvailable (L : Ledger) (pid : ProductId) : Int := (L pid).available

/-- One requested order line: `{productId, qty}` (spec §4.3). -/
structure Item where
  productId : ProductId
  qty : Int
  deriving DecidableEq, Repr

/-- Modelled from the spec: §3/§4.6 Reservation states:
`Pending -> {Confirmed, Released, Expired}`. -/
inductive RState where
  | Pending
  | Confirmed
  | Released
  | Expired
  deriving DecidableEq, Repr

/-- Modelled from the spec: §3 **Reservation** — `order_id`, set of
`{product_id, quantity}` and a `state`. -/
structure Reservation where
  orderId : Nat
  items : List Item
  state : RState
  deriving DecidableEq, Repr

/-- The subsystem state: the stock ledger plus the reservation store (an
association list keyed by reservation id) and the id counter. -/
structure SysState where
  ledger : Ledger
  reservations : List (Nat × Reservation)
  nextId : Nat

/-- Look up a reservation by id. -/
def lookupRes : List (Nat × Reservation) → Nat → Option Reservation
  | [], _ => none
  | (k, r) :: rest, i => if k = i then some r else lookupRes rest i

/-- Set the state of the reservation(s) with the given id. -/
def markState (l : List (Nat × Reservation)) (i : Nat) (st : RState) :
    List (Nat × Reservation) :=
  l.map fun e => if e.1 = i then (e.1, { e.2 with state := st }) else e

/-- Modelled from the spec: §4.2 Distributed Lock Manager backed by a shared
cache (atomic set-if-absent with expiry, owner-checked delete).  `reachable`
models whether the shared cache can be reached; `held` is the key space
(keyed per product, `"inventory-lock:" + product_id`); `counter` generates the
per-acquisition random owner token. -/
structure LockMgr where
  reachable : Bool
  held : ProductId → Option Nat
  counter : Nat

/-- Outcome of a distributed-lock acquisition attempt. -/
inductive AcquireResult where
  | token (t : Nat)
  | busy
  | degraded
  deriving DecidableEq, Repr

/-- Modelled from the spec: §4.2 `acquire(key, ttl) -> token | Busy` — atomic
set-if-not-held returning a fresh owner token; if the shared cache is
unreachable, `acquire` fails open (degraded). -/
def lockAcquire (lk : LockMgr) (pid : ProductId) : AcquireResult × LockMgr :=
  if lk.reachable then
    match lk.held pid with
    | none =>
        (.token lk.counter,
         { lk with
             held := fun p => if p = pid then some lk.counter else lk.held p,
             counter := lk.counter + 1 })
    | some _ => (.busy, lk)
  else
    (.degraded, lk)

/-- Modelled from the spec: §4.2 `release(key, token)` — deletes the key only
if the stored token matches the caller's; a mismatch is a no-op, not an
error.  Called with the acquisition outcome; busy/degraded acquisitions hold
no token, so nothing is released. -/
def lockRelease (lk : LockMgr) (pid : ProductId) (res : AcquireResult) : LockMgr :=
  match res with
  | .token t =>
      if lk.held pid = some t then
        { lk with held := fun p => if p = pid then none else lk.held p }
      else lk
  | _ => lk

/-- Insert one item into a list sorted by ascending `productId`. -/
def insertItem (it : Item) : List Item → List Item
  | [] => [it]
  | x :: xs =>
      if it.productId ≤ x.productId then it :: x :: xs else x :: insertItem it xs

/-- Modelled from the spec: §4.3 step 2 — sort the requested items by
`productId` ascending (the global total order that prevents circular-wait
deadlock). -/
def sortItems : List Item → List Item
  | [] => []
  | x :: xs => insertItem x (sortItems xs)

/-- Compensation: release every already-reserved item.  The `done` stack holds
the items most recently reserved first, so a left fold releases them in
reverse order of acquisition (spec §4.3 step 5). -/
def compensate (L : Ledger) (done : List Item) : Ledger :=
  done.foldl (fun acc it => ledgerRelease acc it.productId it.qty) L

/-- Modelled from the spec: §4.3 step 3 — for each item in sorted order,
attempt the distributed lock (failure is a soft degrade), invoke the
pessimistic strategy (`reserveUnderRowLock`), and release the distributed
lock immediately after the ledger mutation; on the first item failure,
release every earlier item in reverse order and surface that item's error. -/
def reserveLoop (lk : LockMgr) (L : Ledger) :
    List Item → List Item → Option ErrKind × Ledger × LockMgr
  | [], _ => (none, L, lk)
  | it :: rest, done =>
      let a := lockAcquire lk it.productId
      match reserveUnderRowLock L it.productId it.qty with
      | (none, L1) =>
          reserveLoop (lockRelease a.2 it.productId a.1) L1 rest (it :: done)
      | (some e, _) =>
          (some e, compensate L done, lockRelease a.2 it.productId a.1)

/-- Modelled from the spec: §4.3 `reserve(orderId, items)` — validates
`qty > 0` for every item (empty lists and non-positive quantities are
`InvalidRequest`), sorts by `productId`, reserves each item under the
dual-lock pessimistic path, and either persists a `Pending` Reservation or
compensates fully and surfaces the first failure. -/
def reserve (lk : LockMgr) (s : SysState) (orderId : Nat) (items : List Item) :
    (Except ErrKind Nat) × SysState × LockMgr :=
  if items.isEmpty then (.error .InvalidRequest, s, lk)
  else if items.any (fun it => it.qty ≤ 0) then (.error .InvalidRequest, s, lk)
  else
    let sorted := sortItems items
    match reserveLoop lk s.ledger sorted [] with
    | (none, L1, lk1) =>
        (.ok s.nextId,
         { ledger := L1,
           reservations := (s.nextId, ⟨orderId, sorted, .Pending⟩) :: s.reservations,
           nextId := s.nextId + 1 },
         lk1)
    | (some e, L1, lk1) => (.error e, { s with ledger := L1 }, lk1)

/-- Apply `Stock Ledger.confirm` for each item of a reservation. -/
def applyConfirm (L : Ledger) (items : List Item) : Ledger :=
  items.foldl (fun acc it => ledgerConfirm acc it.productId it.qty) L

/-- Apply `Stock Ledger.release` for each item of a reservation. -/
def applyRelease (L : Ledger) (items : List Item) : Ledger :=
  items.foldl (fun acc it => ledgerRelease acc it.productId it.qty) L

/-- Modelled from the spec: §4.6 `confirm(reservationId)` — for each item,
`Stock Ledger.confirm`, then mark the Reservation `Confirmed`.  Idempotent on
an already-`Confirmed` reservation (no-op returning the terminal state);
`InvalidStateTransition` on a `Released`/`Expired` one. -/
def confirmRes (s : SysState) (resId : Nat) : Option ErrKind × SysState :=
  match lookupRes s.reservations resId with
  | none => (some .ReservationNotFound, s)
  | some r =>
      match r.state with
      | .Pending =>
          (none,
           { s with
               ledger := applyConfirm s.ledger r.items,
               reservations := markState s.reservations resId .Confirmed })
      | .Confirmed => (none, s)
      | .Released => (some .InvalidStateTransition, s)
      | .Expired => (some .InvalidStateTransition, s)

/-- Modelled from the spec: §4.6 `release(reservationId)` — for each item,
`Stock Ledger.release`, then mark the Reservation `Released`.  Idempotent on
an already-`Released`/`Expired` reservation; releasing a `Confirmed` one is
not a defined transition (`InvalidStateTransition`). -/
def releaseRes (s : SysState) (resId : Nat) : Option ErrKind × SysState :=
  match lookupRes s.reservations resId with
  | none => (some .ReservationNotFound, s)
  | some r =>
      match r.state with
      | .Pending =>
          (none,
           { s with
               ledger := applyRelease s.ledger r.items,
               reservations := markState s.reservations resId .Released })
      | .Released => (none, s)
      | .Expired => (none, s)
      | .Confirmed => (some .InvalidStateTransition, s)

/-- Modelled from the spec: §4.6 — the background reaper may transition
`Pending -> Expired` once `expires_at` elapses, running `release` semantics as
its side effect; terminal states are left untouched. -/
def expireRes (s : SysState) (resId : Nat) : Option ErrKind × SysState :=
  match lookupRes s.reservations resId with
  | none => (some .ReservationNotFound, s)
  | some r =>
      match r.state with
      | .Pending =>
          (none,
           { s with
               ledger := applyRelease s.ledger r.items,
               reservations := markState s.reservations resId .Expired })
      | .Expired => (none, s)
      | .Released => (some .InvalidStateTransition, s)
      | .Confirmed => (some .InvalidStateTransition, s)

/-- Modelled from the spec: §6 `restock(productId, qty)` — administrative;
increments `quantity` without touching `reserved` (a committed mutation, so
`version` increases); a non-positive quantity is a caller error (§7
`InvalidRequest`: non-positive quantity). -/
def restock (s : SysState) (pid : ProductId) (qty : Int) : Option ErrKind × SysState :=
  if qty ≤ 0 then (some .InvalidRequest, s)
  else
    (none,
     { s with
         ledger := updateLedger s.ledger pid fun r =>
           { r with quantity := r.quantity + qty, version := r.version + 1 } })

/-- Configuration surface (spec §6): the optimistic path's maximum retry
count. -/
structure Config where
  optimisticMaxRetries : Nat

/-- Modelled from the spec: §4.5 Optimistic Reservation Path — each attempt
reads `version` outside any lock, then calls `reserveWithVersionCheck` with
the version just read; `env` models the concurrent interference that may
mutate the ledger between the read and the conditional update (indexed by the
attempt number).  On `VersionMismatch` the path retries from the read step;
when the attempt budget is exhausted it returns `ConcurrencyConflict`.  The
third component counts the conditional-update attempts actually made. -/
def optimisticAttempts (env : Nat → Ledger → Ledger) (pid : ProductId) (qty : Int) :
    Nat → Nat → Ledger → Option ErrKind × Ledger × Nat
  | 0, used, L => (some .ConcurrencyConflict, L, used)
  | n + 1, used, L =>
      let v := (L pid).version
      let L1 := env used L
      match reserveWithVersionCheck L1 pid qty v with
      | (none, L2) => (none, L2, used + 1)
      | (some .VersionMismatch, L2) => optimisticAttempts env pid qty n (used + 1) L2
      | (some e, L2) => (some e, L2, used + 1)

/-- Modelled from the spec: §4.5 — run the optimistic path with the configured
maximum attempt count. -/
def optimisticReserve (cfg : Config) (env : Nat → Ledger → Ledger) (L : Ledger)
    (pid : ProductId) (qty : Int) : Option ErrKind × Ledger × Nat :=
  optimisticAttempts env pid qty cfg.optimisticMaxRetries 0 L

/-- Sequentially reserve a list of items with no compensation: stops at the
first failure, reporting its error.  Used to express which item of a
multi-item reserve is the first failing one. -/
def runItems (L : Ledger) : List Item → Option ErrKind × Ledger
  | [] => (none, L)
  | it :: rest =>
      match reserveUnderRowLock L it.productId it.qty with
      | (none, L1) => runItems L1 rest
      | (some e, _) => (some e, L)

/-- Total quantity requested for one product across a list of items. -/
def itemsSum (items : List Item) (pid : ProductId) : Int :=
  items.foldr (fun it acc => if it.productId = pid then it.qty + acc else acc) 0

/-- A reservation's contribution to the pending total for one product. -/
def resContrib (r : Reservation) (pid : ProductId) : Int :=
  match r.state with
  | .Pending => itemsSum r.items pid
  | _ => 0

/-- Total quantity held by `Pending` reservations for one product. -/
def pendingSum (l : List (Nat × Reservation)) (pid : ProductId) : Int :=
  l.foldr (fun e acc => resContrib e.2 pid + acc) 0

/-- The ledger invariant of spec §3: `0 ≤ reserved ≤ quantity` for every
product. -/
def StockInv (L : Ledger) : Prop :=
  ∀ pid, 0 ≤ (L pid).reserved ∧ (L pid).reserved ≤ (L pid).quantity

/-- The inductive system invariant: the ledger invariant, plus the pending
reservations never hold more than `reserved`, plus every stored reservation
has positive item quantities (all three hold of the states the subsystem
constructs). -/
def StrongInv (s : SysState) : Prop :=
  StockInv s.ledger ∧
  (∀ pid, pendingSum s.reservations pid ≤ (s.ledger pid).reserved) ∧
  (∀ e ∈ s.reservations, ∀ it ∈ e.2.items, 0 < it.qty)

/-- One externally visible operation of the subsystem (spec §6): `reserve`,
`confirm`, `release` or `restock`, with arbitrary arguments and an arbitrary
distributed-lock state. -/
inductive Step : SysState → SysState → Prop where
  | step_reserve (lk : LockMgr) (orderId : Nat) (items : List Item) (s : SysState) :
      Step s (reserve lk s orderId items).2.1
  | step_confirm (resId : Nat) (s : SysState) : Step s (confirmRes s resId).2
  | step_release (resId : Nat) (s : SysState) : Step s (releaseRes s resId).2
  | step_restock (pid : ProductId) (qty : Int) (s : SysState) :
      Step s (restock s pid qty).2

/-- Reachability under any interleaving of the subsystem's operations. -/
def Reachable (s0 s : SysState) : Prop := Relation.ReflTransGen Step s0 s

/-- The transitions the Reservation state machine defines (spec §4.6):
idempotent re-entry, or leaving `Pending` for one of the three terminal
states. -/
def allowedTransition (a b : RState) : Prop :=
  a = b ∨ (a = .Pending ∧ (b = .Confirmed ∨ b = .Released ∨ b = .Expired))

/-- The `quantity=5, reserved=0` scenario ledger of spec §8 (every product
starts with 5 on hand, none reserved, version 0). -/
def scenarioState : SysState :=
  { ledger := fun _ => ⟨5, 0, 0⟩, reservations := [], nextId := 0 }

/-- A sample state holding one Confirmed and one Released reservation, used
to witness the terminal-state behaviour of the compensator. -/
def wState : SysState :=
  { ledger := fun _ => ⟨5, 2, 3⟩,
    reservations := [(0, ⟨1, [⟨1, 2⟩], .Confirmed⟩), (1, ⟨2, [⟨1, 1⟩], .Released⟩)],
    nextId := 2 }

/-- A healthy distributed lock manager holding no locks. -/
def idleLock : LockMgr := ⟨true, fun _ => none, 0⟩

/-- A distributed lock manager whose shared cache is unreachable. -/
def downLock : LockMgr := ⟨false, fun _ => none, 0⟩

end Nova

namespace Frontend

/-- `Inventory` from `frontend/src/types` (also documented in the backend
README): `product_id`, `quantity`, `reserved`, `available`, all numbers. -/
structure Inventory where
  product_id : Nat
  quantity : Int
  reserved : Int
  available : Int
  deriving DecidableEq, Repr

/-- `Category` from `frontend/src/types`. -/
structure Category where
  id : Nat
  name : String
  slug : String
  description : Option String
  parent_id : Option Nat
  deriving DecidableEq, Repr

/-- `Product` from `frontend/src/types`: `inventory` is optional. -/
structure Product where
  id : Nat
  name : String
  description : String
  price : Rat
  sku : String
  image_url : Option String
  is_active : Bool
  categories : List Category
  inventory : Option Inventory
  created_at : String
  deriving DecidableEq, Repr

/-- The recommendation-brief payload accepted by `briefToProduct`
(`src/unnamed/part_002` line 138): every field but `id` and `name` is
optional. -/
structure Brief where
  id : Nat
  name : String
  slug : Option String
  price : Option Rat
  effective_price : Option Rat
  image_url : Option String
  average_rating : Option Rat
  review_count : Option Nat
  is_in_stock : Option Bool
  deriving DecidableEq, Repr

/-- `briefToProduct` (`src/unnamed/part_002` lines 138–152): builds a
`Product` from a recommendation brief.  `b.slug || ...` is JavaScript falsy
selection (an absent or empty slug falls back to `product-${id}`);
`b.effective_price != null` / `b.price != null` are null checks; the
synthesised inventory is `{product_id: b.id, quantity: 0, reserved: 0,
available: b.is_in_stock ? 1 : 0}` where an absent `is_in_stock` is falsy. -/
def briefToProduct (b : Brief) : Product :=
  { id := b.id
    name := b.name
    description := ""
    price :=
      match b.effective_price with
      | some p => p
      | none => match b.price with
                | some p => p
                | none => 0
    sku :=
      match b.slug with
      | some s => if s = "" then "product-" ++ toString b.id else s
      | none => "product-" ++ toString b.id
    image_url := b.image_url
    is_active := true
    categories := []
    inventory := some
      { product_id := b.id
        quantity := 0
        reserved := 0
        available := match b.is_in_stock with
                     | some true => 1
                     | _ => 0 }
    created_at := "" }

/-- `isInStock` (`ProductDetailPage.tsx` line 75):
`product.inventory && product.inventory.available > 0`. -/
def isInStock (p : Product) : Bool :=
  match p.inventory with
  | none => false
  | some inv => inv.available > 0

/-- `maxQuantity` (`ProductDetailPage.tsx` line 76):
`product.inventory?.available || 10` — JavaScript `||` falls through to 10
when `available` is absent or `0`. -/
def maxQuantity (p : Product) : Int :=
  match p.inventory with
  | none => 10
  | some inv => if inv.available = 0 then 10 else inv.available

/-- The Add to Cart button's `disabled={!isInStock}` attribute
(`ProductDetailPage.tsx` line 176); `handleAddToCart` (lines 45–49) fires
only when the button is enabled. -/
def addToCartDisabled (p : Product) : Bool := !(isInStock p)

/-- The quantity stepper's increment handler (`ProductDetailPage.tsx`
line 164): `setQuantity(Math.min(maxQuantity, quantity + 1))`. -/
def incQuantity (p : Product) (q : Int) : Int := min (maxQuantity p) (q + 1)

/-- The quantity stepper's decrement handler (`ProductDetailPage.tsx`
line 157): `setQuantity(Math.max(1, quantity - 1))`. -/
def decQuantity (q : Int) : Int := max 1 (q - 1)

/-- A sample in-stock product used to witness concrete evaluations. -/
def wProduct : Product :=
  { id := 1, name := "p", description := "", price := 5, sku := "sku-1",
    image_url := none, is_active := true, categories := [],
    inventory := some ⟨1, 4, 1, 3⟩, created_at := "" }

end Frontend

namespace Nova

theorem updateLedger_self (L : Ledger) (pid : ProductId) (f : StockRecord → StockRecord) :
    updateLedger L pid f pid = f (L pid) := by
  simp [updateLedger]

theorem itemsSum_nil (pid : ProductId) : itemsSum [] pid = 0 := rfl

theorem itemsSum_cons (it : Item) (rest : List Item) (pid : ProductId) :
    itemsSum (it :: rest) pid =
      if it.productId = pid then it.qty + itemsSum rest pid else itemsSum rest pid := rfl

theorem itemsSum_nonneg (items : List Item) (pid : ProductId)
    (h : ∀ it ∈ items, 0 ≤ it.qty) : 0 ≤ itemsSum items pid := by
  induction items with
  | nil => simp [itemsSum_nil]
  | cons it rest ih =>
      have hr := ih fun x hx => h x (List.mem_cons_of_mem _ hx)
      have hq := h it (List.mem_cons_self _ _)
      rw [itemsSum_cons]
      by_cases hp : it.productId = pid
      · simp only [hp, if_pos rfl]; omega
      · simpa [hp] using hr

theorem insertItem_mem (a it : Item) (l : List Item) :
    a ∈ insertItem it l ↔ a = it ∨ a ∈ l := by
  induction l with
  | nil => simp [insertItem]
  | cons x xs ih =>
      by_cases h : it.productId ≤ x.productId
      · simp [insertItem, h]
      · simp only [insertItem, if_neg h, List.mem_cons, ih]
        tauto

theorem sortItems_mem (a : Item) (l : List Item) : a ∈ sortItems l ↔ a ∈ l := by
  induction l with
  | nil => simp [sortItems]
  | cons x xs ih =>
      simp only [sortItems, insertItem_mem, ih, List.mem_cons]

theorem itemsSum_insertItem (it : Item) (l : List Item) (pid : ProductId) :
    itemsSum (insertItem it l) pid = itemsSum (it :: l) pid := by
  induction l with
  | nil => simp [insertItem]
  | cons x xs ih =>
      by_cases h : it.productId ≤ x.productId
      · simp [insertItem, h]
      · simp only [insertItem, if_neg h]
        rw [itemsSum_cons, ih, itemsSum_cons, itemsSum_cons, itemsSum_cons]
        split_ifs <;> omega

theorem itemsSum_sortItems (l : List Item) (pid : ProductId) :
    itemsSum (sortItems l) pid = itemsSum l pid := by
  induction l with
  | nil => rfl
  | cons x xs ih =>
      simp only [sortItems]
      rw [itemsSum_insertItem, itemsSum_cons, itemsSum_cons, ih]

theorem ledgerRelease_reserved (L : Ledger) (pid : ProductId) (qty : Int) (p : ProductId) :
    ((ledgerRelease L pid qty) p).reserved =
      if p = pid then max 0 ((L p).reserved - qty) else (L p).reserved := by
  by_cases h : p = pid <;> simp [ledgerRelease, updateLedger, h]

theorem ledgerRelease_quantity (L : Ledger) (pid : ProductId) (qty : Int) (p : ProductId) :
    ((ledgerRelease L pid qty) p).quantity = (L p).quantity := by
  by_cases h : p = pid <;> simp [ledgerRelease, updateLedger, h]

theorem ledgerConfirm_reserved (L : Ledger) (pid : ProductId) (qty : Int) (p : ProductId) :
    ((ledgerConfirm L pid qty) p).reserved =
      if p = pid then max 0 ((L p).reserved - qty) else (L p).reserved := by
  by_cases h : p = pid <;> simp [ledgerConfirm, updateLedger, h]

theorem ledgerConfirm_quantity (L : Ledger) (pid : ProductId) (qty : Int) (p : ProductId) :
    ((ledgerConfirm L pid qty) p).quantity =
      if p = pid then (L p).quantity - qty else (L p).quantity := by
  by_cases h : p = pid <;> simp [ledgerConfirm, updateLedger, h]

theorem compensate_nil (L : Ledger) : compensate L [] = L := rfl

theorem compensate_cons (L : Ledger) (it : Item) (d : List Item) :
    compensate L (it :: d) = compensate (ledgerRelease L it.productId it.qty) d := rfl

theorem compensate_quantity (d : List Item) :
    ∀ L : Ledger, ∀ p, ((compensate L d) p).quantity = (L p).quantity := by
  induction d with
  | nil => intro L p; rfl
  | cons it rest ih =>
      intro L p
      rw [compensate_cons, ih, ledgerRelease_quantity]

theorem compensate_reserved_congr (d : List Item) :
    ∀ L1 L2 : Ledger, (∀ p, (L1 p).reserved = (L2 p).reserved) →
      ∀ p, ((compensate L1 d) p).reserved = ((compensate L2 d) p).reserved := by
  induction d with
  | nil => intro L1 L2 h p; exact h p
  | cons it rest ih =>
      intro L1 L2 h p
      rw [compensate_cons, compensate_cons]
      refine ih _ _ ?_ p
      intro q
      rw [ledgerRelease_reserved, ledgerRelease_reserved, h q]

theorem updateLedger_other (L : Ledger) (pid p : ProductId) (f : StockRecord → StockRecord)
    (h : p ≠ pid) : updateLedger L pid f p = L p := by
  simp [updateLedger, h]

theorem reserveLoop_fail (todo : List Item) :
    ∀ lk L done e L' lk',
      (∀ p, 0 ≤ (L p).reserved) →
      (∀ it ∈ todo, 0 ≤ it.qty) →
      reserveLoop lk L todo done = (some e, L', lk') →
      (∀ p, (L' p).reserved = ((compensate L done) p).reserved) ∧
      (∀ p, (L' p).quantity = (L p).quantity) := by
  induction todo with
  | nil =>
      intro lk L done e L' lk' _ _ h
      simp [reserveLoop] at h
  | cons it rest ih =>
      intro lk L done e L' lk' hnn hq h
      by_cases hav : it.qty ≤ (L it.productId).available
      · have hred : reserveUnderRowLock L it.productId it.qty =
            (none, updateLedger L it.productId fun r =>
              { r with reserved := r.reserved + it.qty, version := r.version + 1 }) := by
          simp [reserveUnderRowLock, hav]
        simp only [reserveLoop, hred] at h
        have hqhead : (0 : Int) ≤ it.qty := hq it (List.mem_cons_self _ _)
        have hnn1 : ∀ p, 0 ≤ ((updateLedger L it.productId fun r =>
            { r with reserved := r.reserved + it.qty, version := r.version + 1 }) p).reserved := by
          intro p
          by_cases hp : p = it.productId
          · simp only [updateLedger, if_pos hp]
            show 0 ≤ (L p).reserved + it.qty
            have h1 := hnn p
            omega
          · simp only [updateLedger, if_neg hp]
            exact hnn p
        have hq1 : ∀ x ∈ rest, (0 : Int) ≤ x.qty :=
          fun x hx => hq x (List.mem_cons_of_mem _ hx)
        obtain ⟨hres, hquant⟩ := ih _ _ _ _ _ _ hnn1 hq1 h
        constructor
        · intro p
          rw [hres p, compensate_cons]
          refine compensate_reserved_congr done _ _ ?_ p
          intro q
          rw [ledgerRelease_reserved]
          by_cases hqid : q = it.productId
          · rw [if_pos hqid, hqid, updateLedger_self]
            show max 0 ((L it.productId).reserved + it.qty - it.qty) = (L it.productId).reserved
            have h1 := hnn it.productId
            omega
          · rw [if_neg hqid]
            simp [updateLedger, hqid]
        · intro p
          rw [hquant p]
          by_cases hp : p = it.productId
          · rw [hp, updateLedger_self]
          · simp [updateLedger, hp]
      · have hred : reserveUnderRowLock L it.productId it.qty = (some .OutOfStock, L) := by
          simp [reserveUnderRowLock, hav]
        simp only [reserveLoop, hred, Prod.mk.injEq] at h
        obtain ⟨-, hL', -⟩ := h
        subst hL'
        exact ⟨fun p => rfl, fun p => compensate_quantity done L p⟩

theorem reserveLoop_success (todo : List Item) :
    ∀ lk L done L' lk',
      (∀ it ∈ todo, 0 ≤ it.qty) →
      reserveLoop lk L todo done = (none, L', lk') →
      (∀ p, (L' p).reserved = (L p).reserved + itemsSum todo p) ∧
      (∀ p, (L' p).quantity = (L p).quantity) ∧
      (StockInv L → StockInv L') := by
  induction todo with
  | nil =>
      intro lk L done L' lk' _ h
      simp only [reserveLoop, Prod.mk.injEq] at h
      obtain ⟨-, hL', -⟩ := h
      subst hL'
      exact ⟨fun p => by simp [itemsSum_nil], fun p => rfl, fun hI => hI⟩
  | cons it rest ih =>
      intro lk L done L' lk' hq h
      by_cases hav : it.qty ≤ (L it.productId).available
      · have hred : reserveUnderRowLock L it.productId it.qty =
            (none, updateLedger L it.productId fun r =>
              { r with reserved := r.reserved + it.qty, version := r.version + 1 }) := by
          simp [reserveUnderRowLock, hav]
        simp only [reserveLoop, hred] at h
        have hq1 : ∀ x ∈ rest, (0 : Int) ≤ x.qty :=
          fun x hx => hq x (List.mem_cons_of_mem _ hx)
        obtain ⟨hres, hquant, hinv⟩ := ih _ _ _ _ _ hq1 h
        refine ⟨?_, ?_, ?_⟩
        · intro p
          rw [hres p, itemsSum_cons]
          by_cases hp : p = it.productId
          · rw [hp, updateLedger_self, if_pos rfl]
            show (L it.productId).reserved + it.qty + itemsSum rest it.productId =
              (L it.productId).reserved + (it.qty + itemsSum rest it.productId)
            omega
          · have hp' : ¬ it.productId = p := fun hh => hp hh.symm
            simp only [updateLedger, if_neg hp, if_neg hp']
        · intro p
          rw [hquant p]
          by_cases hp : p = it.productId
          · rw [hp, updateLedger_self]
          · simp [updateLedger, hp]
        · intro hI
          refine hinv ?_
          intro p
          by_cases hp : p = it.productId
          · rw [hp, updateLedger_self]
            have h1 := hI it.productId
            have h2 : it.qty ≤ (L it.productId).quantity - (L it.productId).reserved := hav
            have hq0 : (0 : Int) ≤ it.qty := hq it (List.mem_cons_self _ _)
            constructor
            · show 0 ≤ (L it.productId).reserved + it.qty
              omega
            · show (L it.productId).reserved + it.qty ≤ (L it.productId).quantity
              omega
          · simpa [updateLedger, hp] using hI p
      · have hred : reserveUnderRowLock L it.productId it.qty = (some .OutOfStock, L) := by
          simp [reserveUnderRowLock, hav]
        simp [reserveLoop, hred] at h

theorem reserveLoop_fail_first (todo : List Item) :
    ∀ lk L done e L' lk',
      reserveLoop lk L todo done = (some e, L', lk') →
      ∃ pref it rest L1, todo = pref ++ it :: rest ∧
        runItems L pref = (none, L1) ∧
        (reserveUnderRowLock L1 it.productId it.qty).1 = some e ∧
        L' = compensate L1 (pref.reverse ++ done) := by
  induction todo with
  | nil =>
      intro lk L done e L' lk' h
      simp [reserveLoop] at h
  | cons it rest ih =>
      intro lk L done e L' lk' h
      by_cases hav : it.qty ≤ (L it.productId).available
      · have hred : reserveUnderRowLock L it.productId it.qty =
            (none, updateLedger L it.productId fun r =>
              { r with reserved := r.reserved + it.qty, version := r.version + 1 }) := by
          simp [reserveUnderRowLock, hav]
        simp only [reserveLoop, hred] at h
        obtain ⟨pref, x, rest', L1, hdecomp, hrun, hfail, hcomp⟩ := ih _ _ _ _ _ _ h
        refine ⟨it :: pref, x, rest', L1, by simp [hdecomp], ?_, hfail, ?_⟩
        · simp only [runItems, hred]
          exact hrun
        · rw [hcomp, List.reverse_cons, List.append_assoc]
          rfl
      · have hred : reserveUnderRowLock L it.productId it.qty = (some .OutOfStock, L) := by
          simp [reserveUnderRowLock, hav]
        simp only [reserveLoop, hred, Prod.mk.injEq] at h
        obtain ⟨he, hL', -⟩ := h
        refine ⟨[], it, rest, L, rfl, rfl, ?_, ?_⟩
        · rw [hred]
          exact he
        · exact hL'.symm

theorem reserveLoop_lock_indep (todo : List Item) :
    ∀ lk1 lk2 L done,
      (reserveLoop lk1 L todo done).1 = (reserveLoop lk2 L todo done).1 ∧
      (reserveLoop lk1 L todo done).2.1 = (reserveLoop lk2 L todo done).2.1 := by
  induction todo with
  | nil => intro lk1 lk2 L done; exact ⟨rfl, rfl⟩
  | cons it rest ih =>
      intro lk1 lk2 L done
      by_cases hav : it.qty ≤ (L it.productId).available
      · have hred : reserveUnderRowLock L it.productId it.qty =
            (none, updateLedger L it.productId fun r =>
              { r with reserved := r.reserved + it.qty, version := r.version + 1 }) := by
          simp [reserveUnderRowLock, hav]
        simp only [reserveLoop, hred]
        exact ih _ _ _ _
      · have hred : reserveUnderRowLock L it.productId it.qty = (some .OutOfStock, L) := by
          simp [reserveUnderRowLock, hav]
        simp [reserveLoop, hred]

theorem pendingSum_nil (pid : ProductId) : pendingSum [] pid = 0 := rfl

theorem pendingSum_cons (e : Nat × Reservation) (l : List (Nat × Reservation))
    (pid : ProductId) :
    pendingSum (e :: l) pid = resContrib e.2 pid + pendingSum l pid := rfl

theorem resContrib_nonneg (r : Reservation) (pid : ProductId)
    (h : ∀ it ∈ r.items, 0 ≤ it.qty) : 0 ≤ resContrib r pid := by
  cases hst : r.state <;> simp [resContrib, hst]
  exact itemsSum_nonneg r.items pid h

theorem resContrib_pending (r : Reservation) (pid : ProductId)
    (h : r.state = .Pending) : resContrib r pid = itemsSum r.items pid := by
  simp [resContrib, h]

theorem resContrib_of_ne (r : Reservation) (pid : ProductId)
    (h : r.state ≠ .Pending) : resContrib r pid = 0 := by
  cases hst : r.state
  · exact absurd hst h
  all_goals simp [resContrib, hst]

theorem pendingSum_nonneg (l : List (Nat × Reservation)) (pid : ProductId)
    (h : ∀ e ∈ l, ∀ it ∈ e.2.items, 0 ≤ it.qty) : 0 ≤ pendingSum l pid := by
  induction l with
  | nil => simp [pendingSum_nil]
  | cons e rest ih =>
      rw [pendingSum_cons]
      have h1 := resContrib_nonneg e.2 pid (h e (List.mem_cons_self _ _))
      have h2 := ih fun x hx => h x (List.mem_cons_of_mem _ hx)
      omega

theorem pendingSum_cons2 (k : Nat) (r0 : Reservation) (l : List (Nat × Reservation))
    (pid : ProductId) :
    pendingSum ((k, r0) :: l) pid = resContrib r0 pid + pendingSum l pid := rfl

theorem lookupRes_cons (k : Nat) (r0 : Reservation) (rest : List (Nat × Reservation))
    (j : Nat) :
    lookupRes ((k, r0) :: rest) j = if k = j then some r0 else lookupRes rest j := rfl

theorem markState_cons (k : Nat) (r0 : Reservation) (rest : List (Nat × Reservation))
    (i : Nat) (st : RState) :
    markState ((k, r0) :: rest) i st =
      (if k = i then (k, { r0 with state := st }) else (k, r0)) :: markState rest i st := rfl

theorem lookupRes_mem (l : List (Nat × Reservation)) (i : Nat) (r : Reservation)
    (h : lookupRes l i = some r) : (i, r) ∈ l := by
  induction l with
  | nil => simp [lookupRes] at h
  | cons e rest ih =>
      rcases e with ⟨k, r0⟩
      by_cases hk : k = i
      · rw [lookupRes_cons, if_pos hk] at h
        have hr0 : r0 = r := Option.some.inj h
        rw [← hk, ← hr0]
        exact List.mem_cons_self _ _
      · rw [lookupRes_cons, if_neg hk] at h
        exact List.mem_cons_of_mem _ (ih h)

theorem lookup_pending_le (l : List (Nat × Reservation)) (i : Nat) (r : Reservation)
    (hlook : lookupRes l i = some r) (hr : r.state = .Pending)
    (h : ∀ e ∈ l, ∀ it ∈ e.2.items, 0 ≤ it.qty) (pid : ProductId) :
    itemsSum r.items pid ≤ pendingSum l pid := by
  induction l with
  | nil => simp [lookupRes] at hlook
  | cons e rest ih =>
      rcases e with ⟨k, r0⟩
      rw [pendingSum_cons2]
      by_cases hk : k = i
      · rw [lookupRes_cons, if_pos hk] at hlook
        have hr0 : r0 = r := Option.some.inj hlook
        rw [hr0, resContrib_pending r pid hr]
        have h2 := pendingSum_nonneg rest pid fun x hx => h x (List.mem_cons_of_mem _ hx)
        omega
      · rw [lookupRes_cons, if_neg hk] at hlook
        have h1 := resContrib_nonneg r0 pid (h (k, r0) (List.mem_cons_self _ _))
        have h2 := ih hlook fun x hx => h x (List.mem_cons_of_mem _ hx)
        omega

theorem lookup_markState (l : List (Nat × Reservation)) (i j : Nat) (st : RState) :
    lookupRes (markState l i st) j =
      (lookupRes l j).map fun r => if j = i then { r with state := st } else r := by
  induction l with
  | nil => rfl
  | cons e rest ih =>
      rcases e with ⟨k, r0⟩
      rw [markState_cons]
      by_cases hki : k = i
      · rw [if_pos hki, lookupRes_cons, lookupRes_cons]
        by_cases hkj : k = j
        · have hji : j = i := by omega
          rw [if_pos hkj, if_pos hkj, Option.map_some', if_pos hji]
        · rw [if_neg hkj, if_neg hkj]
          exact ih
      · rw [if_neg hki, lookupRes_cons, lookupRes_cons]
        by_cases hkj : k = j
        · have hji : ¬ j = i := by omega
          rw [if_pos hkj, if_pos hkj, Option.map_some', if_neg hji]
        · rw [if_neg hkj, if_neg hkj]
          exact ih

theorem markState_qty_pos (l : List (Nat × Reservation)) (i : Nat) (st : RState)
    (h : ∀ e ∈ l, ∀ it ∈ e.2.items, 0 < it.qty) :
    ∀ e' ∈ markState l i st, ∀ it ∈ e'.2.items, 0 < it.qty := by
  intro e' he' it hit
  obtain ⟨e, he, hfe⟩ := List.mem_map.mp he'
  by_cases hei : e.1 = i
  · rw [if_pos hei] at hfe
    refine h e he it ?_
    rw [← hfe] at hit
    exact hit
  · rw [if_neg hei] at hfe
    subst hfe
    exact h e he it hit

theorem pendingSum_markState_le (l : List (Nat × Reservation)) (i : Nat) (st : RState)
    (hst : st ≠ .Pending)
    (h : ∀ e ∈ l, ∀ it ∈ e.2.items, 0 ≤ it.qty) (pid : ProductId) :
    pendingSum (markState l i st) pid ≤ pendingSum l pid := by
  induction l with
  | nil => simp [markState, pendingSum_nil]
  | cons e rest ih =>
      rcases e with ⟨k, r0⟩
      have hrec := ih fun x hx => h x (List.mem_cons_of_mem _ hx)
      rw [markState_cons, pendingSum_cons2]
      by_cases hki : k = i
      · rw [if_pos hki, pendingSum_cons2]
        have h0 : resContrib { r0 with state := st } pid = 0 :=
          resContrib_of_ne _ _ (by simpa using hst)
        have h1 := resContrib_nonneg r0 pid (h (k, r0) (List.mem_cons_self _ _))
        rw [h0]
        omega
      · rw [if_neg hki, pendingSum_cons2]
        simp only [Prod.snd]
        omega

theorem pendingSum_markState_drop (l : List (Nat × Reservation)) (i : Nat)
    (r : Reservation) (st : RState) (hst : st ≠ .Pending)
    (hlook : lookupRes l i = some r) (hr : r.state = .Pending)
    (h : ∀ e ∈ l, ∀ it ∈ e.2.items, 0 ≤ it.qty) (pid : ProductId) :
    pendingSum (markState l i st) pid ≤ pendingSum l pid - itemsSum r.items pid := by
  induction l with
  | nil => simp [lookupRes] at hlook
  | cons e rest ih =>
      rcases e with ⟨k, r0⟩
      rw [markState_cons, pendingSum_cons2]
      by_cases hki : k = i
      · rw [lookupRes_cons, if_pos hki] at hlook
        have hr0 : r0 = r := Option.some.inj hlook
        rw [if_pos hki, pendingSum_cons2]
        have h0 : resContrib { r0 with state := st } pid = 0 :=
          resContrib_of_ne _ _ (by simpa using hst)
        have h1 : resContrib r0 pid = itemsSum r.items pid := by
          rw [hr0]
          exact resContrib_pending r pid hr
        have h2 : pendingSum (markState rest i st) pid ≤ pendingSum rest pid :=
          pendingSum_markState_le rest i st hst
            (fun x hx => h x (List.mem_cons_of_mem _ hx)) pid
        rw [h0, h1]
        omega
      · rw [lookupRes_cons, if_neg hki] at hlook
        rw [if_neg hki, pendingSum_cons2]
        simp only [Prod.snd]
        have h2 := ih hlook fun x hx => h x (List.mem_cons_of_mem _ hx)
        omega
theorem applyConfirm_cons (L : Ledger) (it : Item) (rest : List Item) :
    applyConfirm L (it :: rest) = applyConfirm (ledgerConfirm L it.productId it.qty) rest := rfl

theorem applyRelease_cons (L : Ledger) (it : Item) (rest : List Item) :
    applyRelease L (it :: rest) = applyRelease (ledgerRelease L it.productId it.qty) rest := rfl

theorem applyConfirm_spec (items : List Item) :
    ∀ L : Ledger,
      (∀ it ∈ items, 0 ≤ it.qty) →
      (∀ p, itemsSum items p ≤ (L p).reserved) →
      ∀ p, ((applyConfirm L items) p).reserved = (L p).reserved - itemsSum items p ∧
           ((applyConfirm L items) p).quantity = (L p).quantity - itemsSum items p := by
  induction items with
  | nil =>
      intro L _ _ p
      rw [itemsSum_nil]
      exact ⟨by simp [applyConfirm], by simp [applyConfirm]⟩
  | cons it rest ih =>
      intro L hq hsum p
      have hq0 : (0 : Int) ≤ it.qty := hq it (List.mem_cons_self _ _)
      have hq1 : ∀ x ∈ rest, (0 : Int) ≤ x.qty :=
        fun x hx => hq x (List.mem_cons_of_mem _ hx)
      have hrestnn : ∀ q, 0 ≤ itemsSum rest q := fun q => itemsSum_nonneg rest q hq1
      have hsum1 : ∀ q, itemsSum rest q ≤ ((ledgerConfirm L it.productId it.qty) q).reserved := by
        intro q
        rw [ledgerConfirm_reserved]
        by_cases hqp : q = it.productId
        · rw [if_pos hqp]
          have hs := hsum q
          rw [itemsSum_cons, if_pos (show it.productId = q from hqp.symm)] at hs
          have := hrestnn q
          omega
        · rw [if_neg hqp]
          have hs := hsum q
          rw [itemsSum_cons] at hs
          by_cases hpq : it.productId = q
          · exact absurd hpq.symm hqp
          · rw [if_neg hpq] at hs
            exact hs
      obtain ⟨hres, hquant⟩ := ih (ledgerConfirm L it.productId it.qty) hq1 hsum1 p
      rw [applyConfirm_cons, itemsSum_cons]
      constructor
      · rw [hres, ledgerConfirm_reserved]
        by_cases hqp : p = it.productId
        · rw [if_pos hqp, if_pos (show it.productId = p from hqp.symm)]
          have hs := hsum p
          rw [itemsSum_cons, if_pos (show it.productId = p from hqp.symm)] at hs
          have := hrestnn p
          omega
        · rw [if_neg hqp, if_neg (show ¬ it.productId = p from fun hh => hqp hh.symm)]
      · rw [hquant, ledgerConfirm_quantity]
        by_cases hqp : p = it.productId
        · rw [if_pos hqp, if_pos (show it.productId = p from hqp.symm)]
          omega
        · rw [if_neg hqp, if_neg (show ¬ it.productId = p from fun hh => hqp hh.symm)]

theorem applyRelease_spec (items : List Item) :
    ∀ L : Ledger,
      (∀ it ∈ items, 0 ≤ it.qty) →
      (∀ p, itemsSum items p ≤ (L p).reserved) →
      ∀ p, ((applyRelease L items) p).reserved = (L p).reserved - itemsSum items p ∧
           ((applyRelease L items) p).quantity = (L p).quantity := by
  induction items with
  | nil =>
      intro L _ _ p
      rw [itemsSum_nil]
      exact ⟨by simp [applyRelease], by simp [applyRelease]⟩
  | cons it rest ih =>
      intro L hq hsum p
      have hq0 : (0 : Int) ≤ it.qty := hq it (List.mem_cons_self _ _)
      have hq1 : ∀ x ∈ rest, (0 : Int) ≤ x.qty :=
        fun x hx => hq x (List.mem_cons_of_mem _ hx)
      have hrestnn : ∀ q, 0 ≤ itemsSum rest q := fun q => itemsSum_nonneg rest q hq1
      have hsum1 : ∀ q, itemsSum rest q ≤ ((ledgerRelease L it.productId it.qty) q).reserved := by
        intro q
        rw [ledgerRelease_reserved]
        by_cases hqp : q = it.productId
        · rw [if_pos hqp]
          have hs := hsum q
          rw [itemsSum_cons, if_pos (show it.productId = q from hqp.symm)] at hs
          have := hrestnn q
          omega
        · rw [if_neg hqp]
          have hs := hsum q
          rw [itemsSum_cons] at hs
          by_cases hpq : it.productId = q
          · exact absurd hpq.symm hqp
          · rw [if_neg hpq] at hs
            exact hs
      obtain ⟨hres, hquant⟩ := ih (ledgerRelease L it.productId it.qty) hq1 hsum1 p
      rw [applyRelease_cons, itemsSum_cons]
      constructor
      · rw [hres, ledgerRelease_reserved]
        by_cases hqp : p = it.productId
        · rw [if_pos hqp, if_pos (show it.productId = p from hqp.symm)]
          have hs := hsum p
          rw [itemsSum_cons, if_pos (show it.productId = p from hqp.symm)] at hs
          have := hrestnn p
          omega
        · rw [if_neg hqp, if_neg (show ¬ it.productId = p from fun hh => hqp hh.symm)]
      · rw [hquant, ledgerRelease_quantity]

/-- Claim C2: when a multi-item reserve call fails, the Orchestrator releases
every item reserved earlier in the loop in reverse order — the returned
ledger is exactly the reverse-order release fold (`compensate` over the
reversed successful prefix) — so each product's reserved quantity is exactly
what it was before the call; no Reservation record is persisted (the store
and the id counter are untouched); and — unless the failure was the up-front
`InvalidRequest` validation — the error kind is that of the first failing
item: the sorted item list splits into a prefix that reserves cleanly,
followed by the item whose `reserveUnderRowLock` produced exactly the
returned error. -/
theorem claim_C2_compensation (lk : LockMgr) (s : SysState) (orderId : Nat)
    (items : List Item) (e : ErrKind) (s' : SysState) (lk' : LockMgr)
    (hnn : ∀ p, 0 ≤ (s.ledger p).reserved)
    (h : reserve lk s orderId items = (.error e, s', lk')) :
    (∀ p, (s'.ledger p).reserved = (s.ledger p).reserved) ∧
    s'.reservations = s.reservations ∧ s'.nextId = s.nextId ∧
    (e ≠ .InvalidRequest →
      ∃ pref it rest L1, sortItems items = pref ++ it :: rest ∧
        runItems s.ledger pref = (none, L1) ∧
        (reserveUnderRowLock L1 it.productId it.qty).1 = some e ∧
        s'.ledger = compensate L1 pref.reverse) := by
  unfold reserve at h
  by_cases hemp : items.isEmpty
  · rw [if_pos hemp] at h
    simp only [Prod.mk.injEq, Except.error.injEq] at h
    obtain ⟨he, hs, -⟩ := h
    subst hs
    exact ⟨fun _ => rfl, rfl, rfl, fun hne => absurd he.symm hne⟩
  · rw [if_neg hemp] at h
    by_cases hany : items.any fun it => it.qty ≤ 0
    · rw [if_pos hany] at h
      simp only [Prod.mk.injEq, Except.error.injEq] at h
      obtain ⟨he, hs, -⟩ := h
      subst hs
      exact ⟨fun _ => rfl, rfl, rfl, fun hne => absurd he.symm hne⟩
    · rw [if_neg hany] at h
      have hpos : ∀ it ∈ items, 0 < it.qty := by
        intro it hit
        by_contra hcon
        have : items.any (fun it => it.qty ≤ 0) = true :=
          List.any_eq_true.mpr ⟨it, hit, by simpa using hcon⟩
        exact hany this
      have hq : ∀ it ∈ sortItems items, (0 : Int) ≤ it.qty := by
        intro it hit
        exact le_of_lt (hpos it ((sortItems_mem it items).mp hit))
      rcases hloop : reserveLoop lk s.ledger (sortItems items) [] with ⟨res, L1, lk1⟩
      cases res with
      | none => simp [hloop] at h
      | some e0 =>
          simp only [hloop, Prod.mk.injEq, Except.error.injEq] at h
          obtain ⟨he, hs, -⟩ := h
          subst hs
          obtain ⟨hres, -⟩ :=
            reserveLoop_fail (sortItems items) lk s.ledger [] e0 L1 lk1 hnn hq hloop
          subst he
          refine ⟨fun p => hres p, rfl, rfl, fun _ => ?_⟩
          obtain ⟨pref, it, rest, L1x, hdec, hrun, hfail, hcomp⟩ :=
            reserveLoop_fail_first (sortItems items) lk s.ledger [] e0 L1 lk1 hloop
          refine ⟨pref, it, rest, L1x, hdec, hrun, hfail, ?_⟩
          show L1 = compensate L1x pref.reverse
          rw [hcomp, List.append_nil]

/-- Witness for C2: a two-item order whose second item is out of stock rolls
the first item back in reverse order and persists nothing. -/
theorem claim_C2_witness :
    (∀ p, ((reserve idleLock scenarioState 1 [⟨1, 3⟩, ⟨2, 10⟩]).2.1.ledger p).reserved
        = (scenarioState.ledger p).reserved) ∧
    (reserve idleLock scenarioState 1 [⟨1, 3⟩, ⟨2, 10⟩]).2.1.reservations
        = scenarioState.reservations ∧
    ∃ pref it rest L1, sortItems [⟨1, 3⟩, ⟨2, 10⟩] = pref ++ it :: rest ∧
      runItems scenarioState.ledger pref = (none, L1) ∧
      (reserveUnderRowLock L1 it.productId it.qty).1 = some .OutOfStock ∧
      (reserve idleLock scenarioState 1 [⟨1, 3⟩, ⟨2, 10⟩]).2.1.ledger =
        compensate L1 pref.reverse :=
  ⟨(claim_C2_compensation idleLock scenarioState 1 [⟨1, 3⟩, ⟨2, 10⟩] .OutOfStock
      (reserve idleLock scenarioState 1 [⟨1, 3⟩, ⟨2, 10⟩]).2.1
      (reserve idleLock scenarioState 1 [⟨1, 3⟩, ⟨2, 10⟩]).2.2
      (fun _ => le_refl 0) rfl).1,
   (claim_C2_compensation idleLock scenarioState 1 [⟨1, 3⟩, ⟨2, 10⟩] .OutOfStock
      (reserve idleLock scenarioState 1 [⟨1, 3⟩, ⟨2, 10⟩]).2.1
      (reserve idleLock scenarioState 1 [⟨1, 3⟩, ⟨2, 10⟩]).2.2
      (fun _ => le_refl 0) rfl).2.1,
   (claim_C2_compensation idleLock scenarioState 1 [⟨1, 3⟩, ⟨2, 10⟩] .OutOfStock
      (reserve idleLock scenarioState 1 [⟨1, 3⟩, ⟨2, 10⟩]).2.1
      (reserve idleLock scenarioState 1 [⟨1, 3⟩, ⟨2, 10⟩]).2.2
      (fun _ => le_refl 0) rfl).2.2.2 (by decide)⟩

theorem strongInv_reserve (lk : LockMgr) (s : SysState) (orderId : Nat)
    (items : List Item) (hInv : StrongInv s) :
    StrongInv (reserve lk s orderId items).2.1 := by
  obtain ⟨hstock, hpend, hqty⟩ := hInv
  unfold reserve
  by_cases hemp : items.isEmpty
  · rw [if_pos hemp]
    exact ⟨hstock, hpend, hqty⟩
  · rw [if_neg hemp]
    by_cases hany : items.any fun it => it.qty ≤ 0
    · rw [if_pos hany]
      exact ⟨hstock, hpend, hqty⟩
    · rw [if_neg hany]
      have hpos : ∀ it ∈ items, 0 < it.qty := by
        intro it hit
        by_contra hcon
        exact hany (List.any_eq_true.mpr ⟨it, hit, by simpa using hcon⟩)
      have hq : ∀ it ∈ sortItems items, (0 : Int) ≤ it.qty :=
        fun it hit => le_of_lt (hpos it ((sortItems_mem it items).mp hit))
      rcases hloop : reserveLoop lk s.ledger (sortItems items) [] with ⟨res, L1, lk1⟩
      cases res with
      | some e =>
          simp only [hloop]
          obtain ⟨hres, hquant⟩ := reserveLoop_fail (sortItems items) lk s.ledger [] e L1 lk1
            (fun p => (hstock p).1) hq hloop
          have hres' : ∀ p, (L1 p).reserved = (s.ledger p).reserved := by
            intro p
            rw [hres p, compensate_nil]
          refine ⟨?_, ?_, hqty⟩
          · intro p
            rw [hres' p, hquant p]
            exact hstock p
          · intro p
            rw [hres' p]
            exact hpend p
      | none =>
          simp only [hloop]
          obtain ⟨hres, hquant, hstockp⟩ :=
            reserveLoop_success (sortItems items) lk s.ledger [] L1 lk1 hq hloop
          refine ⟨hstockp hstock, ?_, ?_⟩
          · intro p
            rw [pendingSum_cons2]
            have hcontrib : resContrib ⟨orderId, sortItems items, RState.Pending⟩ p
                = itemsSum (sortItems items) p := rfl
            rw [hcontrib, hres p]
            have h1 := hpend p
            omega
          · intro e he it hit
            rcases List.mem_cons.mp he with he1 | he2
            · rw [he1] at hit
              exact hpos it ((sortItems_mem it items).mp hit)
            · exact hqty e he2 it hit

theorem strongInv_confirm (s : SysState) (i : Nat) (hInv : StrongInv s) :
    StrongInv (confirmRes s i).2 := by
  obtain ⟨hstock, hpend, hqty⟩ := hInv
  unfold confirmRes
  rcases hlook : lookupRes s.reservations i with - | r
  · exact ⟨hstock, hpend, hqty⟩
  · cases hst : r.state with
    | Pending =>
        simp only [hst]
        have hqall : ∀ e ∈ s.reservations, ∀ it ∈ e.2.items, (0 : Int) ≤ it.qty :=
          fun e he it h => le_of_lt (hqty e he it h)
        have hq0 : ∀ it ∈ r.items, (0 : Int) ≤ it.qty :=
          fun it h => le_of_lt (hqty (i, r) (lookupRes_mem _ _ _ hlook) it h)
        have hile : ∀ p, itemsSum r.items p ≤ (s.ledger p).reserved :=
          fun p => le_trans (lookup_pending_le _ _ _ hlook hst hqall p) (hpend p)
        have spec := applyConfirm_spec r.items s.ledger hq0 hile
        refine ⟨?_, ?_, markState_qty_pos s.reservations i .Confirmed hqty⟩
        · intro p
          obtain ⟨hr, hqn⟩ := spec p
          rw [hr, hqn]
          have h1 := lookup_pending_le _ _ _ hlook hst hqall p
          have h2 := hpend p
          have h3 := (hstock p).2
          constructor <;> omega
        · intro p
          show pendingSum (markState s.reservations i RState.Confirmed) p ≤
            ((applyConfirm s.ledger r.items) p).reserved
          rw [(spec p).1]
          have hd := pendingSum_markState_drop s.reservations i r .Confirmed
            (by simp) hlook hst hqall p
          have h2 := hpend p
          omega
    | Confirmed => simp only [hst]; exact ⟨hstock, hpend, hqty⟩
    | Released => simp only [hst]; exact ⟨hstock, hpend, hqty⟩
    | Expired => simp only [hst]; exact ⟨hstock, hpend, hqty⟩

theorem strongInv_releaseCore (s : SysState) (i : Nat) (r : Reservation)
    (hlook : lookupRes s.reservations i = some r) (hst : r.state = .Pending)
    (st : RState) (hstne : st ≠ .Pending) (hInv : StrongInv s) :
    StrongInv { s with ledger := applyRelease s.ledger r.items,
                       reservations := markState s.reservations i st } := by
  obtain ⟨hstock, hpend, hqty⟩ := hInv
  have hqall : ∀ e ∈ s.reservations, ∀ it ∈ e.2.items, (0 : Int) ≤ it.qty :=
    fun e he it h => le_of_lt (hqty e he it h)
  have hq0 : ∀ it ∈ r.items, (0 : Int) ≤ it.qty :=
    fun it h => le_of_lt (hqty (i, r) (lookupRes_mem _ _ _ hlook) it h)
  have hile : ∀ p, itemsSum r.items p ≤ (s.ledger p).reserved :=
    fun p => le_trans (lookup_pending_le _ _ _ hlook hst hqall p) (hpend p)
  have spec := applyRelease_spec r.items s.ledger hq0 hile
  refine ⟨?_, ?_, markState_qty_pos s.reservations i st hqty⟩
  · intro p
    obtain ⟨hr, hqn⟩ := spec p
    rw [hr, hqn]
    have h1 := lookup_pending_le _ _ _ hlook hst hqall p
    have h2 := hpend p
    have h3 := (hstock p).2
    have h4 := itemsSum_nonneg r.items p hq0
    constructor <;> omega
  · intro p
    show pendingSum (markState s.reservations i st) p ≤
      ((applyRelease s.ledger r.items) p).reserved
    rw [(spec p).1]
    have hd := pendingSum_markState_drop s.reservations i r st hstne hlook hst hqall p
    have h2 := hpend p
    omega

theorem strongInv_release (s : SysState) (i : Nat) (hInv : StrongInv s) :
    StrongInv (releaseRes s i).2 := by
  unfold releaseRes
  rcases hlook : lookupRes s.reservations i with - | r
  · exact hInv
  · cases hst : r.state with
    | Pending =>
        simp only [hst]
        exact strongInv_releaseCore s i r hlook hst .Released (by simp) hInv
    | Confirmed => simp only [hst]; exact hInv
    | Released => simp only [hst]; exact hInv
    | Expired => simp only [hst]; exact hInv

theorem strongInv_restock (s : SysState) (pid : ProductId) (qty : Int)
    (hInv : StrongInv s) : StrongInv (restock s pid qty).2 := by
  obtain ⟨hstock, hpend, hqty⟩ := hInv
  unfold restock
  by_cases hq : qty ≤ 0
  · rw [if_pos hq]
    exact ⟨hstock, hpend, hqty⟩
  · rw [if_neg hq]
    refine ⟨?_, ?_, hqty⟩
    · intro p
      show 0 ≤ ((updateLedger s.ledger pid fun r =>
          { r with quantity := r.quantity + qty, version := r.version + 1 }) p).reserved ∧
        ((updateLedger s.ledger pid fun r =>
          { r with quantity := r.quantity + qty, version := r.version + 1 }) p).reserved ≤
        ((updateLedger s.ledger pid fun r =>
          { r with quantity := r.quantity + qty, version := r.version + 1 }) p).quantity
      by_cases hp : p = pid
      · rw [hp, updateLedger_self]
        have h1 := hstock pid
        constructor
        · exact h1.1
        · show (s.ledger pid).reserved ≤ (s.ledger pid).quantity + qty
          omega
      · rw [updateLedger_other _ _ _ _ hp]
        exact hstock p
    · intro p
      show pendingSum s.reservations p ≤ ((updateLedger s.ledger pid fun r =>
          { r with quantity := r.quantity + qty, version := r.version + 1 }) p).reserved
      by_cases hp : p = pid
      · rw [hp, updateLedger_self]
        exact hpend pid
      · rw [updateLedger_other _ _ _ _ hp]
        exact hpend p

theorem strongInv_step (s s' : SysState) (hstep : Step s s') (hInv : StrongInv s) :
    StrongInv s' := by
  cases hstep with
  | step_reserve lk orderId items _ => exact strongInv_reserve lk s orderId items hInv
  | step_confirm resId _ => exact strongInv_confirm s resId hInv
  | step_release resId _ => exact strongInv_release s resId hInv
  | step_restock pid qty _ => exact strongInv_restock s pid qty hInv

/-- Claim C1: in every state reachable from a well-formed state under any
interleaving of `reserve`, `confirm`, `release` and `restock` operations,
every product's StockRecord satisfies `0 ≤ reserved ≤ quantity`, and
therefore `available = quantity - reserved ≥ 0`. -/
theorem claim_C1_stock_invariant (s0 s : SysState) (hInv : StrongInv s0)
    (hreach : Reachable s0 s) :
    ∀ pid, 0 ≤ (s.ledger pid).reserved ∧
      (s.ledger pid).reserved ≤ (s.ledger pid).quantity ∧
      (s.ledger pid).available = (s.ledger pid).quantity - (s.ledger pid).reserved ∧
      0 ≤ (s.ledger pid).available := by
  have h : StrongInv s := by
    induction hreach with
    | refl => exact hInv
    | tail hsteps hstep ih => exact strongInv_step _ _ hstep ih
  intro pid
  obtain ⟨hstock, -, -⟩ := h
  have h1 := hstock pid
  refine ⟨h1.1, h1.2, rfl, ?_⟩
  show 0 ≤ (s.ledger pid).quantity - (s.ledger pid).reserved
  omega

/-- Witness for C1 at the concrete well-formed scenario state (every product
has `quantity = 5`, `reserved = 0`, no reservations). -/
theorem claim_C1_witness :
    StrongInv scenarioState ∧
    ∀ pid, 0 ≤ (scenarioState.ledger pid).reserved ∧
      (scenarioState.ledger pid).reserved ≤ (scenarioState.ledger pid).quantity ∧
      (scenarioState.ledger pid).available =
        (scenarioState.ledger pid).quantity - (scenarioState.ledger pid).reserved ∧
      0 ≤ (scenarioState.ledger pid).available :=
  have hInv : StrongInv scenarioState :=
    ⟨fun _ => ⟨le_refl 0, show (0 : Int) ≤ 5 by norm_num⟩, fun _ => le_refl 0,
     fun e he => absurd he (List.not_mem_nil e)⟩
  ⟨hInv, claim_C1_stock_invariant scenarioState scenarioState hInv Relation.ReflTransGen.refl⟩

theorem reserve_lock_indep (lk1 lk2 : LockMgr) (s : SysState) (orderId : Nat)
    (items : List Item) :
    (reserve lk1 s orderId items).1 = (reserve lk2 s orderId items).1 ∧
    (reserve lk1 s orderId items).2.1 = (reserve lk2 s orderId items).2.1 := by
  unfold reserve
  by_cases hemp : items.isEmpty
  · rw [if_pos hemp, if_pos hemp]
    exact ⟨rfl, rfl⟩
  · rw [if_neg hemp, if_neg hemp]
    by_cases hany : items.any fun it => it.qty ≤ 0
    · rw [if_pos hany, if_pos hany]
      exact ⟨rfl, rfl⟩
    · rw [if_neg hany, if_neg hany]
      rcases h1 : reserveLoop lk1 s.ledger (sortItems items) [] with ⟨res1, L1, lka⟩
      rcases h2 : reserveLoop lk2 s.ledger (sortItems items) [] with ⟨res2, L2, lkb⟩
      have hind := reserveLoop_lock_indep (sortItems items) lk1 lk2 s.ledger []
      rw [h1, h2] at hind
      have hres : res1 = res2 := hind.1
      have hL : L1 = L2 := hind.2
      subst hres
      subst hL
      simp only [h1, h2]
      cases res1 with
      | none => exact ⟨rfl, rfl⟩
      | some e => exact ⟨rfl, rfl⟩

/-- Claim C8: the distributed lock is a contention optimization, never a
correctness requirement.  When the shared cache is unreachable `acquire`
fails open (degraded, mutating nothing) and the Orchestrator proceeds to the
pessimistic path; the reserve outcome (result and resulting system state) is
identical under any two lock-manager states — in particular with the cache
down versus up — and the stock invariant is still enforced by a reserve run
with the cache unreachable. -/
theorem claim_C8_lock_degradation (lk1 lk2 : LockMgr) (s : SysState) (orderId : Nat)
    (items : List Item) :
    (lk1.reachable = false →
      ∀ pid, (lockAcquire lk1 pid).1 = .degraded ∧ (lockAcquire lk1 pid).2 = lk1) ∧
    (reserve lk1 s orderId items).1 = (reserve lk2 s orderId items).1 ∧
    (reserve lk1 s orderId items).2.1 = (reserve lk2 s orderId items).2.1 ∧
    (lk1.reachable = false → StrongInv s →
      ∀ pid, 0 ≤ ((reserve lk1 s orderId items).2.1.ledger pid).reserved ∧
        ((reserve lk1 s orderId items).2.1.ledger pid).reserved ≤
          ((reserve lk1 s orderId items).2.1.ledger pid).quantity) := by
  refine ⟨?_, (reserve_lock_indep lk1 lk2 s orderId items).1,
    (reserve_lock_indep lk1 lk2 s orderId items).2, ?_⟩
  · intro hdown pid
    unfold lockAcquire
    rw [hdown]
    exact ⟨rfl, rfl⟩
  · intro _ hInv pid
    obtain ⟨hstock, -, -⟩ := strongInv_reserve lk1 s orderId items hInv
    exact hstock pid

/-- Witness for C8: with the cache down, a concrete reserve still succeeds
with the same outcome as with the cache up, and the invariant holds after. -/
theorem claim_C8_witness :
    ((downLock.reachable = false →
      ∀ pid, (lockAcquire downLock pid).1 = .degraded ∧
        (lockAcquire downLock pid).2 = downLock) ∧
    (reserve downLock scenarioState 1 [⟨1, 2⟩]).1 =
      (reserve idleLock scenarioState 1 [⟨1, 2⟩]).1 ∧
    (reserve downLock scenarioState 1 [⟨1, 2⟩]).2.1 =
      (reserve idleLock scenarioState 1 [⟨1, 2⟩]).2.1 ∧
    (downLock.reachable = false → StrongInv scenarioState →
      ∀ pid, 0 ≤ ((reserve downLock scenarioState 1 [⟨1, 2⟩]).2.1.ledger pid).reserved ∧
        ((reserve downLock scenarioState 1 [⟨1, 2⟩]).2.1.ledger pid).reserved ≤
          ((reserve downLock scenarioState 1 [⟨1, 2⟩]).2.1.ledger pid).quantity)) ∧
    (∀ pid, 0 ≤ ((reserve downLock scenarioState 1 [⟨1, 2⟩]).2.1.ledger pid).reserved ∧
      ((reserve downLock scenarioState 1 [⟨1, 2⟩]).2.1.ledger pid).reserved ≤
        ((reserve downLock scenarioState 1 [⟨1, 2⟩]).2.1.ledger pid).quantity) :=
  have hInv : StrongInv scenarioState :=
    ⟨fun _ => ⟨le_refl 0, show (0 : Int) ≤ 5 by norm_num⟩, fun _ => le_refl 0,
     fun e he => absurd he (List.not_mem_nil e)⟩
  have hmain := claim_C8_lock_degradation downLock idleLock scenarioState 1 [⟨1, 2⟩]
  ⟨hmain, hmain.2.2.2 rfl hInv⟩

/-- Claim C3: `reserveUnderRowLock(productId, qty, txn)` succeeds if and only
if `available ≥ qty` for that product's record; on success it increments
`reserved` by `qty` and increments `version` (leaving `quantity` and the
other products untouched); on failure it returns `OutOfStock` and leaves the
record unchanged — the transaction is rolled back, so the ledger the caller
keeps is the original one. -/
theorem claim_C3_reserveUnderRowLock (L : Ledger) (pid : ProductId) (qty : Int) :
    ((reserveUnderRowLock L pid qty).1 = none ↔ qty ≤ (L pid).available) ∧
    (∀ L', reserveUnderRowLock L pid qty = (none, L') →
      (L' pid).reserved = (L pid).reserved + qty ∧
      (L' pid).version = (L pid).version + 1 ∧
      (L' pid).quantity = (L pid).quantity ∧
      ∀ p, p ≠ pid → L' p = L p) ∧
    (∀ e L', reserveUnderRowLock L pid qty = (some e, L') →
      e = .OutOfStock ∧ L' = L ∧ ¬ qty ≤ (L pid).available) := by
  unfold reserveUnderRowLock
  by_cases h : qty ≤ (L pid).available
  · refine ⟨by simp [h], ?_, ?_⟩
    · intro L' hL'
      simp only [if_pos h, Prod.mk.injEq] at hL'
      rw [← hL'.2]
      refine ⟨by simp [updateLedger], by simp [updateLedger], by simp [updateLedger], ?_⟩
      intro p hp
      simp [updateLedger, hp]
    · intro e L' hL'
      simp [if_pos h] at hL'
  · refine ⟨by simp [h], ?_, ?_⟩
    · intro L' hL'
      simp [if_neg h] at hL'
    · intro e L' hL'
      simp only [if_neg h, Prod.mk.injEq, Option.some.injEq] at hL'
      exact ⟨hL'.1.symm, hL'.2.symm, h⟩

/-- Witness for C3 at a concrete record. -/
theorem claim_C3_witness :
    ((reserveUnderRowLock (fun _ => ⟨5, 0, 0⟩) 1 5).1 = none ↔
        (5 : Int) ≤ StockRecord.available ⟨5, 0, 0⟩) ∧
    (∀ L', reserveUnderRowLock (fun _ => ⟨5, 0, 0⟩) 1 5 = (none, L') →
      (L' 1).reserved = (0 : Int) + 5 ∧
      (L' 1).version = 0 + 1 ∧
      (L' 1).quantity = (5 : Int) ∧
      ∀ p, p ≠ 1 → L' p = ⟨5, 0, 0⟩) ∧
    (∀ e L', reserveUnderRowLock (fun _ => ⟨5, 0, 0⟩) 1 5 = (some e, L') →
      e = .OutOfStock ∧ L' = (fun _ => ⟨5, 0, 0⟩) ∧
        ¬ (5 : Int) ≤ StockRecord.available ⟨5, 0, 0⟩) :=
  claim_C3_reserveUnderRowLock (fun _ => ⟨5, 0, 0⟩) 1 5

theorem optimisticAttempts_mismatch (env : Nat → Ledger → Ledger) (pid : ProductId)
    (qty : Int) (henv : ∀ i L, ((env i L) pid).version ≠ (L pid).version) :
    ∀ n used L, (optimisticAttempts env pid qty n used L).1 = some .ConcurrencyConflict ∧
      (optimisticAttempts env pid qty n used L).2.2 = used + n := by
  intro n
  induction n with
  | zero => intro used L; simp [optimisticAttempts]
  | succ m ih =>
      intro used L
      have hmis : reserveWithVersionCheck (env used L) pid qty ((L pid).version) =
          (some .VersionMismatch, env used L) := by
        unfold reserveWithVersionCheck
        simp [henv used L]
      simp only [optimisticAttempts, hmis]
      have h := ih (used + 1) (env used L)
      refine ⟨h.1, ?_⟩
      rw [h.2]
      omega

/-- Claim C4: `reserveWithVersionCheck(productId, qty, expectedVersion)`
mutates the record if and only if the record's version equals
`expectedVersion` and `available ≥ qty` (on the false side the ledger is
returned untouched, with the error kind telling which condition failed); and
the Optimistic Reservation Path, when every conditional update comes back
`VersionMismatch`, retries from the read step exactly the configured maximum
number of attempts and then returns `ConcurrencyConflict`. -/
theorem claim_C4_optimistic (L : Ledger) (pid : ProductId) (qty : Int) (v : Nat) :
    ((reserveWithVersionCheck L pid qty v).1 = none ↔
        ((L pid).version = v ∧ qty ≤ (L pid).available)) ∧
    ((L pid).version = v ∧ qty ≤ (L pid).available →
      ((reserveWithVersionCheck L pid qty v).2 pid).reserved = (L pid).reserved + qty ∧
      ((reserveWithVersionCheck L pid qty v).2 pid).version = (L pid).version + 1) ∧
    (¬ ((L pid).version = v ∧ qty ≤ (L pid).available) →
      (reserveWithVersionCheck L pid qty v).2 = L) ∧
    ((L pid).version ≠ v →
      (reserveWithVersionCheck L pid qty v).1 = some .VersionMismatch) ∧
    ((L pid).version = v → ¬ qty ≤ (L pid).available →
      (reserveWithVersionCheck L pid qty v).1 = some .OutOfStock) ∧
    (∀ cfg env, (∀ i L', ((env i L') pid).version ≠ (L' pid).version) →
      (optimisticReserve cfg env L pid qty).1 = some .ConcurrencyConflict ∧
      (optimisticReserve cfg env L pid qty).2.2 = cfg.optimisticMaxRetries) := by
  refine ⟨?_, ?_, ?_, ?_, ?_, ?_⟩
  · unfold reserveWithVersionCheck
    by_cases hv : (L pid).version = v
    · by_cases hq : qty ≤ (L pid).available
      · simp [hv, hq]
      · simp [hv, hq]
    · simp [hv]
  · rintro ⟨hv, hq⟩
    unfold reserveWithVersionCheck
    simp [hv, hq, updateLedger]
  · intro h
    unfold reserveWithVersionCheck
    by_cases hv : (L pid).version = v
    · have hq : ¬ qty ≤ (L pid).available := fun hq => h ⟨hv, hq⟩
      simp [hv, hq]
    · simp [hv]
  · intro hv
    unfold reserveWithVersionCheck
    simp [hv]
  · intro hv hq
    unfold reserveWithVersionCheck
    simp [hv, hq]
  · intro cfg env henv
    have h := optimisticAttempts_mismatch env pid qty henv cfg.optimisticMaxRetries 0 L
    unfold optimisticReserve
    refine ⟨h.1, ?_⟩
    have h2 := h.2
    omega

/-- Witness for C4: with an interfering writer that bumps the version between
every read and conditional update, three configured attempts all mismatch and
the path reports `ConcurrencyConflict` after exactly three tries. -/
theorem claim_C4_witness :
    (optimisticReserve ⟨3⟩
        (fun _ L => updateLedger L 1 fun r => { r with version := r.version + 1 })
        (fun _ => ⟨5, 0, 0⟩) 1 2).1 = some .ConcurrencyConflict ∧
    (optimisticReserve ⟨3⟩
        (fun _ L => updateLedger L 1 fun r => { r with version := r.version + 1 })
        (fun _ => ⟨5, 0, 0⟩) 1 2).2.2 = 3 :=
  (claim_C4_optimistic (fun _ => ⟨5, 0, 0⟩) 1 2 0).2.2.2.2.2 ⟨3⟩
    (fun _ L => updateLedger L 1 fun r => { r with version := r.version + 1 })
    (fun i L' => by simp [updateLedger])

/-- Claim C5: in the spec §8 scenario (product 1 with `quantity=5`,
`reserved=0`), `reserve(order1, [{P,5}])` succeeds leaving `available=0`; a
subsequent `reserve(order2, [{P,1}])` fails with `OutOfStock`; releasing
order1's reservation afterwards restores `available=5`, whereas confirming it
instead leaves `quantity=0` and `reserved=0`. -/
theorem claim_C5_scenario :
    (reserve idleLock scenarioState 1 [⟨1, 5⟩]).1 = .ok 0 ∧
    getAvailable ((reserve idleLock scenarioState 1 [⟨1, 5⟩]).2.1).ledger 1 = 0 ∧
    (reserve idleLock ((reserve idleLock scenarioState 1 [⟨1, 5⟩]).2.1) 2 [⟨1, 1⟩]).1 =
      .error .OutOfStock ∧
    getAvailable ((releaseRes
        ((reserve idleLock ((reserve idleLock scenarioState 1 [⟨1, 5⟩]).2.1)
          2 [⟨1, 1⟩]).2.1) 0).2.ledger) 1 = 5 ∧
    ((confirmRes ((reserve idleLock scenarioState 1 [⟨1, 5⟩]).2.1) 0).2.ledger 1).quantity = 0 ∧
    ((confirmRes ((reserve idleLock scenarioState 1 [⟨1, 5⟩]).2.1) 0).2.ledger 1).reserved = 0 :=
  ⟨rfl, rfl, rfl, rfl, rfl, rfl⟩

theorem confirmRes_none (s : SysState) (i : Nat)
    (hlook : lookupRes s.reservations i = none) :
    confirmRes s i = (some .ReservationNotFound, s) := by
  simp only [confirmRes, hlook]

theorem confirmRes_eq_pending (s : SysState) (i : Nat) (r : Reservation)
    (hlook : lookupRes s.reservations i = some r) (hst : r.state = .Pending) :
    confirmRes s i =
      (none, { s with ledger := applyConfirm s.ledger r.items,
                      reservations := markState s.reservations i .Confirmed }) := by
  simp only [confirmRes, hlook, hst]

theorem confirmRes_eq_confirmed (s : SysState) (i : Nat) (r : Reservation)
    (hlook : lookupRes s.reservations i = some r) (hst : r.state = .Confirmed) :
    confirmRes s i = (none, s) := by
  simp only [confirmRes, hlook, hst]

theorem confirmRes_eq_released (s : SysState) (i : Nat) (r : Reservation)
    (hlook : lookupRes s.reservations i = some r) (hst : r.state = .Released) :
    confirmRes s i = (some .InvalidStateTransition, s) := by
  simp only [confirmRes, hlook, hst]

theorem confirmRes_eq_expired (s : SysState) (i : Nat) (r : Reservation)
    (hlook : lookupRes s.reservations i = some r) (hst : r.state = .Expired) :
    confirmRes s i = (some .InvalidStateTransition, s) := by
  simp only [confirmRes, hlook, hst]

theorem releaseRes_none (s : SysState) (i : Nat)
    (hlook : lookupRes s.reservations i = none) :
    releaseRes s i = (some .ReservationNotFound, s) := by
  simp only [releaseRes, hlook]

theorem releaseRes_eq_pending (s : SysState) (i : Nat) (r : Reservation)
    (hlook : lookupRes s.reservations i = some r) (hst : r.state = .Pending) :
    releaseRes s i =
      (none, { s with ledger := applyRelease s.ledger r.items,
                      reservations := markState s.reservations i .Released }) := by
  simp only [releaseRes, hlook, hst]

theorem releaseRes_eq_released (s : SysState) (i : Nat) (r : Reservation)
    (hlook : lookupRes s.reservations i = some r) (hst : r.state = .Released) :
    releaseRes s i = (none, s) := by
  simp only [releaseRes, hlook, hst]

theorem releaseRes_eq_expired (s : SysState) (i : Nat) (r : Reservation)
    (hlook : lookupRes s.reservations i = some r) (hst : r.state = .Expired) :
    releaseRes s i = (none, s) := by
  simp only [releaseRes, hlook, hst]

theorem releaseRes_eq_confirmed (s : SysState) (i : Nat) (r : Reservation)
    (hlook : lookupRes s.reservations i = some r) (hst : r.state = .Confirmed) :
    releaseRes s i = (some .InvalidStateTransition, s) := by
  simp only [releaseRes, hlook, hst]

theorem expireRes_none (s : SysState) (i : Nat)
    (hlook : lookupRes s.reservations i = none) :
    expireRes s i = (some .ReservationNotFound, s) := by
  simp only [expireRes, hlook]

theorem expireRes_eq_pending (s : SysState) (i : Nat) (r : Reservation)
    (hlook : lookupRes s.reservations i = some r) (hst : r.state = .Pending) :
    expireRes s i =
      (none, { s with ledger := applyRelease s.ledger r.items,
                      reservations := markState s.reservations i .Expired }) := by
  simp only [expireRes, hlook, hst]

theorem expireRes_eq_expired (s : SysState) (i : Nat) (r : Reservation)
    (hlook : lookupRes s.reservations i = some r) (hst : r.state = .Expired) :
    expireRes s i = (none, s) := by
  simp only [expireRes, hlook, hst]

theorem expireRes_eq_released (s : SysState) (i : Nat) (r : Reservation)
    (hlook : lookupRes s.reservations i = some r) (hst : r.state = .Released) :
    expireRes s i = (some .InvalidStateTransition, s) := by
  simp only [expireRes, hlook, hst]

theorem expireRes_eq_confirmed (s : SysState) (i : Nat) (r : Reservation)
    (hlook : lookupRes s.reservations i = some r) (hst : r.state = .Confirmed) :
    expireRes s i = (some .InvalidStateTransition, s) := by
  simp only [expireRes, hlook, hst]

theorem confirmRes_idem (s : SysState) (i : Nat) :
    (confirmRes (confirmRes s i).2 i).2 = (confirmRes s i).2 := by
  rcases hlook : lookupRes s.reservations i with - | r
  · have hfix : (confirmRes s i).2 = s := by rw [confirmRes_none s i hlook]
    rw [hfix, confirmRes_none s i hlook]
  · cases hstate : r.state with
    | Pending =>
        have hfix : (confirmRes s i).2 =
            { s with ledger := applyConfirm s.ledger r.items,
                     reservations := markState s.reservations i .Confirmed } := by
          rw [confirmRes_eq_pending s i r hlook hstate]
        rw [hfix]
        have h2 : lookupRes (markState s.reservations i RState.Confirmed) i =
            some { r with state := RState.Confirmed } := by
          rw [lookup_markState, hlook]
          simp
        rw [confirmRes_eq_confirmed _ i { r with state := RState.Confirmed } h2 rfl]
    | Confirmed =>
        have hfix : (confirmRes s i).2 = s := by
          rw [confirmRes_eq_confirmed s i r hlook hstate]
        rw [hfix, confirmRes_eq_confirmed s i r hlook hstate]
    | Released =>
        have hfix : (confirmRes s i).2 = s := by
          rw [confirmRes_eq_released s i r hlook hstate]
        rw [hfix, confirmRes_eq_released s i r hlook hstate]
    | Expired =>
        have hfix : (confirmRes s i).2 = s := by
          rw [confirmRes_eq_expired s i r hlook hstate]
        rw [hfix, confirmRes_eq_expired s i r hlook hstate]

theorem releaseRes_idem (s : SysState) (i : Nat) :
    (releaseRes (releaseRes s i).2 i).2 = (releaseRes s i).2 := by
  rcases hlook : lookupRes s.reservations i with - | r
  · have hfix : (releaseRes s i).2 = s := by rw [releaseRes_none s i hlook]
    rw [hfix, releaseRes_none s i hlook]
  · cases hstate : r.state with
    | Pending =>
        have hfix : (releaseRes s i).2 =
            { s with ledger := applyRelease s.ledger r.items,
                     reservations := markState s.reservations i .Released } := by
          rw [releaseRes_eq_pending s i r hlook hstate]
        rw [hfix]
        have h2 : lookupRes (markState s.reservations i RState.Released) i =
            some { r with state := RState.Released } := by
          rw [lookup_markState, hlook]
          simp
        rw [releaseRes_eq_released _ i { r with state := RState.Released } h2 rfl]
    | Confirmed =>
        have hfix : (releaseRes s i).2 = s := by
          rw [releaseRes_eq_confirmed s i r hlook hstate]
        rw [hfix, releaseRes_eq_confirmed s i r hlook hstate]
    | Released =>
        have hfix : (releaseRes s i).2 = s := by
          rw [releaseRes_eq_released s i r hlook hstate]
        rw [hfix, releaseRes_eq_released s i r hlook hstate]
    | Expired =>
        have hfix : (releaseRes s i).2 = s := by
          rw [releaseRes_eq_expired s i r hlook hstate]
        rw [hfix, releaseRes_eq_expired s i r hlook hstate]

/-- Claim C6: confirm and release are idempotent — confirm of an
already-Confirmed reservation and release of an already-Released or Expired
one return the existing terminal state without mutating anything, and a
second confirm (or release) of the same reservation leaves exactly the state
the first one produced. -/
theorem claim_C6_idempotence (s : SysState) (i : Nat) :
    (∀ r, lookupRes s.reservations i = some r → r.state = .Confirmed →
        confirmRes s i = (none, s)) ∧
    (∀ r, lookupRes s.reservations i = some r →
        r.state = .Released ∨ r.state = .Expired →
        releaseRes s i = (none, s)) ∧
    (confirmRes (confirmRes s i).2 i).2 = (confirmRes s i).2 ∧
    (releaseRes (releaseRes s i).2 i).2 = (releaseRes s i).2 := by
  refine ⟨?_, ?_, confirmRes_idem s i, releaseRes_idem s i⟩
  · intro r hlook hst
    exact confirmRes_eq_confirmed s i r hlook hst
  · intro r hlook hst
    rcases hst with h | h
    · exact releaseRes_eq_released s i r hlook h
    · exact releaseRes_eq_expired s i r hlook h

/-- Witness for C6 at a state holding one Confirmed and one Released
reservation. -/
theorem claim_C6_witness :
    confirmRes wState 0 = (none, wState) ∧
    releaseRes wState 1 = (none, wState) ∧
    (confirmRes (confirmRes wState 0).2 0).2 = (confirmRes wState 0).2 :=
  ⟨(claim_C6_idempotence wState 0).1 ⟨1, [⟨1, 2⟩], .Confirmed⟩ rfl rfl,
   (claim_C6_idempotence wState 1).2.1 ⟨2, [⟨1, 1⟩], .Released⟩ rfl (Or.inl rfl),
   (claim_C6_idempotence wState 0).2.2.1⟩

theorem markState_transition (s : SysState) (i j : Nat) (r0 : Reservation)
    (st : RState)
    (hlook : lookupRes s.reservations i = some r0) (h0 : r0.state = .Pending)
    (hst : st = .Confirmed ∨ st = .Released ∨ st = .Expired) :
    ∀ r r', lookupRes s.reservations j = some r →
      lookupRes (markState s.reservations i st) j = some r' →
      allowedTransition r.state r'.state := by
  intro r r' hj hj'
  rw [lookup_markState, hj] at hj'
  simp only [Option.map_some', Option.some.injEq] at hj'
  by_cases hji : j = i
  · rw [if_pos hji] at hj'
    have hrr : r = r0 := by
      rw [hji] at hj
      rw [hlook] at hj
      exact (Option.some.inj hj).symm
    right
    constructor
    · rw [hrr]
      exact h0
    · rw [← hj']
      rcases hst with h | h | h
      · exact Or.inl (by rw [h])
      · exact Or.inr (Or.inl (by rw [h]))
      · exact Or.inr (Or.inr (by rw [h]))
  · rw [if_neg hji] at hj'
    left
    rw [← hj']

theorem unchanged_transition (rs : List (Nat × Reservation)) (j : Nat) :
    ∀ r r', lookupRes rs j = some r → lookupRes rs j = some r' →
      allowedTransition r.state r'.state := by
  intro r r' hj hj'
  rw [hj] at hj'
  exact Or.inl (by rw [Option.some.inj hj'])

/-- Claim C7: calling confirm on a Released or Expired reservation returns
`InvalidStateTransition` and changes nothing; and across confirm, release and
the expiry reaper, the only state change a stored reservation can undergo is
`Pending` to `Confirmed`/`Released`/`Expired` — a terminal state is never
left except by the idempotent re-entry (state preserved). -/
theorem claim_C7_state_machine (s : SysState) (i : Nat) :
    (∀ r, lookupRes s.reservations i = some r →
        r.state = .Released ∨ r.state = .Expired →
        confirmRes s i = (some .InvalidStateTransition, s)) ∧
    (∀ j r r', lookupRes s.reservations j = some r →
        lookupRes ((confirmRes s i).2).reservations j = some r' →
        allowedTransition r.state r'.state) ∧
    (∀ j r r', lookupRes s.reservations j = some r →
        lookupRes ((releaseRes s i).2).reservations j = some r' →
        allowedTransition r.state r'.state) ∧
    (∀ j r r', lookupRes s.reservations j = some r →
        lookupRes ((expireRes s i).2).reservations j = some r' →
        allowedTransition r.state r'.state) := by
  refine ⟨?_, ?_, ?_, ?_⟩
  · intro r hlook hst
    rcases hst with h | h
    · exact confirmRes_eq_released s i r hlook h
    · exact confirmRes_eq_expired s i r hlook h
  · intro j r r' hj hj'
    rcases hlook : lookupRes s.reservations i with - | r0
    · have hfix : (confirmRes s i).2 = s := by rw [confirmRes_none s i hlook]
      rw [hfix] at hj'
      exact unchanged_transition s.reservations j r r' hj hj'
    · cases hstate : r0.state with
      | Pending =>
          have hfix : (confirmRes s i).2 =
              { s with ledger := applyConfirm s.ledger r0.items,
                       reservations := markState s.reservations i .Confirmed } := by
            rw [confirmRes_eq_pending s i r0 hlook hstate]
          rw [hfix] at hj'
          exact markState_transition s i j r0 .Confirmed hlook hstate
            (Or.inl rfl) r r' hj hj'
      | Confirmed =>
          have hfix : (confirmRes s i).2 = s := by
            rw [confirmRes_eq_confirmed s i r0 hlook hstate]
          rw [hfix] at hj'
          exact unchanged_transition s.reservations j r r' hj hj'
      | Released =>
          have hfix : (confirmRes s i).2 = s := by
            rw [confirmRes_eq_released s i r0 hlook hstate]
          rw [hfix] at hj'
          exact unchanged_transition s.reservations j r r' hj hj'
      | Expired =>
          have hfix : (confirmRes s i).2 = s := by
            rw [confirmRes_eq_expired s i r0 hlook hstate]
          rw [hfix] at hj'
          exact unchanged_transition s.reservations j r r' hj hj'
  · intro j r r' hj hj'
    rcases hlook : lookupRes s.reservations i with - | r0
    · have hfix : (releaseRes s i).2 = s := by rw [releaseRes_none s i hlook]
      rw [hfix] at hj'
      exact unchanged_transition s.reservations j r r' hj hj'
    · cases hstate : r0.state with
      | Pending =>
          have hfix : (releaseRes s i).2 =
              { s with ledger := applyRelease s.ledger r0.items,
                       reservations := markState s.reservations i .Released } := by
            rw [releaseRes_eq_pending s i r0 hlook hstate]
          rw [hfix] at hj'
          exact markState_transition s i j r0 .Released hlook hstate
            (Or.inr (Or.inl rfl)) r r' hj hj'
      | Confirmed =>
          have hfix : (releaseRes s i).2 = s := by
            rw [releaseRes_eq_confirmed s i r0 hlook hstate]
          rw [hfix] at hj'
          exact unchanged_transition s.reservations j r r' hj hj'
      | Released =>
          have hfix : (releaseRes s i).2 = s := by
            rw [releaseRes_eq_released s i r0 hlook hstate]
          rw [hfix] at hj'
          exact unchanged_transition s.reservations j r r' hj hj'
      | Expired =>
          have hfix : (releaseRes s i).2 = s := by
            rw [releaseRes_eq_expired s i r0 hlook hstate]
          rw [hfix] at hj'
          exact unchanged_transition s.reservations j r r' hj hj'
  · intro j r r' hj hj'
    rcases hlook : lookupRes s.reservations i with - | r0
    · have hfix : (expireRes s i).2 = s := by rw [expireRes_none s i hlook]
      rw [hfix] at hj'
      exact unchanged_transition s.reservations j r r' hj hj'
    · cases hstate : r0.state with
      | Pending =>
          have hfix : (expireRes s i).2 =
              { s with ledger := applyRelease s.ledger r0.items,
                       reservations := markState s.reservations i .Expired } := by
            rw [expireRes_eq_pending s i r0 hlook hstate]
          rw [hfix] at hj'
          exact markState_transition s i j r0 .Expired hlook hstate
            (Or.inr (Or.inr rfl)) r r' hj hj'
      | Confirmed =>
          have hfix : (expireRes s i).2 = s := by
            rw [expireRes_eq_confirmed s i r0 hlook hstate]
          rw [hfix] at hj'
          exact unchanged_transition s.reservations j r r' hj hj'
      | Released =>
          have hfix : (expireRes s i).2 = s := by
            rw [expireRes_eq_released s i r0 hlook hstate]
          rw [hfix] at hj'
          exact unchanged_transition s.reservations j r r' hj hj'
      | Expired =>
          have hfix : (expireRes s i).2 = s := by
            rw [expireRes_eq_expired s i r0 hlook hstate]
          rw [hfix] at hj'
          exact unchanged_transition s.reservations j r r' hj hj'

/-- Witness for C7: confirming the Released reservation of the sample state
is an InvalidStateTransition leaving the state unchanged, and the recorded
transition relation holds at a concrete lookup. -/
theorem claim_C7_witness :
    confirmRes wState 1 = (some .InvalidStateTransition, wState) ∧
    allowedTransition (⟨1, [⟨1, 2⟩], .Confirmed⟩ : Reservation).state
      (⟨1, [⟨1, 2⟩], .Confirmed⟩ : Reservation).state :=
  ⟨(claim_C7_state_machine wState 1).1 ⟨2, [⟨1, 1⟩], .Released⟩ rfl (Or.inl rfl),
   (claim_C7_state_machine wState 1).2.1 0 ⟨1, [⟨1, 2⟩], .Confirmed⟩
     ⟨1, [⟨1, 2⟩], .Confirmed⟩ rfl
     (by
       rw [(claim_C7_state_machine wState 1).1 ⟨2, [⟨1, 1⟩], .Released⟩ rfl (Or.inl rfl)]
       rfl)⟩

end Nova

namespace Frontend

/-- Claim C9: `briefToProduct` returns a Product whose inventory is exactly
`{product_id: b.id, quantity: 0, reserved: 0, available: 1 if b.is_in_stock
else 0}`; in particular, whenever `b.is_in_stock` is true the synthesised
inventory violates the identity `available = quantity - reserved` (available
is 1 while quantity − reserved is 0). -/
theorem claim_C9_briefToProduct (b : Brief) :
    (briefToProduct b).inventory =
      some ⟨b.id, 0, 0, if b.is_in_stock = some true then 1 else 0⟩ ∧
    (b.is_in_stock = some true →
      ∃ inv, (briefToProduct b).inventory = some inv ∧
        inv.available = 1 ∧ inv.quantity - inv.reserved = 0 ∧
        inv.available ≠ inv.quantity - inv.reserved) := by
  constructor
  · match h : b.is_in_stock with
    | none => simp [briefToProduct, h]
    | some true => simp [briefToProduct, h]
    | some false => simp [briefToProduct, h]
  · intro h
    refine ⟨⟨b.id, 0, 0, 1⟩, ?_, rfl, rfl, by simp⟩
    simp [briefToProduct, h]

/-- Witness for C9 at an in-stock brief. -/
theorem claim_C9_witness :
    (briefToProduct ⟨7, "n", none, none, none, none, none, none, some true⟩).inventory =
      some ⟨7, 0, 0, if (some true : Option Bool) = some true then 1 else 0⟩ ∧
    ∃ inv,
      (briefToProduct ⟨7, "n", none, none, none, none, none, none, some true⟩).inventory =
          some inv ∧
        inv.available = 1 ∧ inv.quantity - inv.reserved = 0 ∧
        inv.available ≠ inv.quantity - inv.reserved :=
  ⟨(claim_C9_briefToProduct ⟨7, "n", none, none, none, none, none, none, some true⟩).1,
   (claim_C9_briefToProduct ⟨7, "n", none, none, none, none, none, none, some true⟩).2 rfl⟩

/-- Claim C10: on the product detail page the Add to Cart button is disabled
exactly when the product has no inventory record or `inventory.available ≤ 0`
(`isInStock` false), so `handleAddToCart` is reachable only for a product
with `available > 0`; and the selectable quantity is capped at
`inventory.available` when it is nonzero and at 10 otherwise. -/
theorem claim_C10_product_detail (p : Product) :
    (addToCartDisabled p = true ↔
      p.inventory = none ∨ ∃ inv, p.inventory = some inv ∧ inv.available ≤ 0) ∧
    (addToCartDisabled p = false →
      ∃ inv, p.inventory = some inv ∧ 0 < inv.available) ∧
    (∀ inv, p.inventory = some inv → inv.available ≠ 0 → maxQuantity p = inv.available) ∧
    (∀ inv, p.inventory = some inv → inv.available = 0 → maxQuantity p = 10) ∧
    (p.inventory = none → maxQuantity p = 10) ∧
    (∀ q, incQuantity p q ≤ maxQuantity p) := by
  refine ⟨?_, ?_, ?_, ?_, ?_, ?_⟩
  · match h : p.inventory with
    | none => simp [addToCartDisabled, isInStock, h]
    | some inv =>
        simp only [addToCartDisabled, isInStock, h, Bool.not_eq_true']
        constructor
        · intro hle
          exact Or.inr ⟨inv, rfl, by simpa using hle⟩
        · rintro (hnone | ⟨inv', hinv', hle⟩)
          · exact absurd hnone (by simp)
          · have : inv' = inv := by
              have := hinv'
              simp only [Option.some.injEq] at this
              exact this.symm
            subst this
            simpa using hle
  · intro hfalse
    match h : p.inventory with
    | none => simp [addToCartDisabled, isInStock, h] at hfalse
    | some inv =>
        refine ⟨inv, rfl, ?_⟩
        simp only [addToCartDisabled, isInStock, h, Bool.not_eq_false] at hfalse
        simpa using hfalse
  · intro inv hinv hne
    simp [maxQuantity, hinv, hne]
  · intro inv hinv hz
    simp [maxQuantity, hinv, hz]
  · intro h
    simp [maxQuantity, h]
  · intro q
    simp [incQuantity]

/-- Witness for C10 at a product with three units available. -/
theorem claim_C10_witness :
    (addToCartDisabled wProduct = false →
      ∃ inv, wProduct.inventory = some inv ∧ 0 < inv.available) ∧
    (∀ inv, wProduct.inventory = some inv → inv.available ≠ 0 →
      maxQuantity wProduct = inv.available) ∧
    (∀ q, incQuantity wProduct q ≤ maxQuantity wProduct) :=
  ⟨(claim_C10_product_detail wProduct).2.1,
   (claim_C10_product_detail wProduct).2.2.1,
   (claim_C10_product_detail wProduct).2.2.2.2.2⟩

end Frontend
